import Mathlib

/-!
Shallow embedding of the hostel room allotment core (src/app.py): the
Room and Student entities, the HostelSystem collection state, the
add_room / add_student operations, the allocate_rooms greedy pass and
the get_stats aggregation.  Python's in-place object mutation is
modelled by explicit state passing; the allocation pass addresses
students by their index in the collection, which models Python object
identity (sorted_students holds references into self.students).
Python ints are embedded as Int; Python's stable sorted(key=year,
reverse=True) is embedded as a stable insertion sort whose ordering
properties are proved below.
-/

structure Room where
  number : String
  capacity : Int
  floor : Int
  type : String
  occupied : Int
  students : List String
deriving DecidableEq

def Room.is_available (r : Room) : Bool :=
  r.occupied < r.capacity

def Room.add_student (r : Room) (sid : String) : Room × Bool :=
  if r.is_available then
    ({ r with students := r.students ++ [sid], occupied := r.occupied + 1 }, true)
  else
    (r, false)

def mkRoom (number : String) (capacity floor : Int) (rtype : String) : Room :=
  { number := number, capacity := capacity, floor := floor, type := rtype,
    occupied := 0, students := [] }

structure Student where
  sid : String
  name : String
  gender : String
  year : Int
  room : Option String
deriving DecidableEq

def mkStudent (sid name gender : String) (year : Int) : Student :=
  { sid := sid, name := name, gender := gender, year := year, room := none }

structure HostelState where
  rooms : List Room
  students : List Student
deriving DecidableEq

structure LogEntry where
  student : String
  room : Option String
  status : String
deriving DecidableEq

structure AllocResult where
  success : Bool
  message : Option String
  log : Option (List LogEntry)
deriving DecidableEq

/-- Python's str.lower, embedded character-wise over the string data. -/
def strLower (s : String) : String := ⟨s.data.map Char.toLower⟩

def genderOf (s : Student) : String := strLower s.gender

/-- Pairing of each student with its index in the collection; models the
object identity of the Python Student instances. -/
def withIdxFrom (k : Nat) : List Student → List (Nat × Student)
  | [] => []
  | s :: ss => (k, s) :: withIdxFrom (k + 1) ss

def withIdx (l : List Student) : List (Nat × Student) := withIdxFrom 0 l

/-- Insertion step of the stable year-descending sort:
sorted(self.students, key=lambda s: s.year, reverse=True). -/
def insertYearDesc (p : Nat × Student) : List (Nat × Student) → List (Nat × Student)
  | [] => [p]
  | q :: qs => if q.2.year ≤ p.2.year then p :: q :: qs else q :: insertYearDesc p qs

def sortYearDesc : List (Nat × Student) → List (Nat × Student)
  | [] => []
  | p :: ps => insertYearDesc p (sortYearDesc ps)

/-- Visitation order of the allocation pass: the year-sorted students
filtered to the "male" group first, then to the "female" group (the two
comprehensions over sorted_students in allocate_rooms). -/
def visitOrder (students : List Student) : List (Nat × Student) :=
  (sortYearDesc (withIdx students)).filter (fun p => genderOf p.2 == "male") ++
    (sortYearDesc (withIdx students)).filter (fun p => genderOf p.2 == "female")

/-- The inner room scan of allocate_rooms: walk self.rooms in stored
order and add the student to the first available room (the
"r.is_available() and r.add_student(s.sid)" loop with break). -/
def allocScan (sid : String) : List Room → List Room × Option String
  | [] => ([], none)
  | r :: rs =>
    if r.is_available then
      ((r.add_student sid).1 :: rs, some r.number)
    else
      let p := allocScan sid rs
      (r :: p.1, p.2)

/-- The per-student allocation loop: for each visited student, scan the
rooms; on success set the student's room field (mutation at its index)
and log success, otherwise log failure and continue. -/
def allocLoop : List (Nat × Student) → List Room → List Student → List LogEntry →
    List Room × List Student × List LogEntry
  | [], rooms, students, log => (rooms, students, log)
  | (i, s) :: rest, rooms, students, log =>
    match allocScan s.sid rooms with
    | (rooms1, some num) =>
        allocLoop rest rooms1 (students.set i { s with room := some num })
          (log ++ [{ student := s.name, room := some num, status := "success" }])
    | (rooms1, none) =>
        allocLoop rest rooms1 students
          (log ++ [{ student := s.name, room := none, status := "failed" }])

namespace HostelSystem

def add_room (st : HostelState) (number : String) (capacity floor : Int)
    (rtype : String) : HostelState × Bool :=
  ({ st with rooms := st.rooms ++ [mkRoom number capacity floor rtype] }, true)

def add_student (st : HostelState) (sid name gender : String) (year : Int) :
    HostelState × Bool :=
  ({ st with students := st.students ++ [mkStudent sid name gender year] }, true)

def allocate_rooms (st : HostelState) : HostelState × AllocResult :=
  if st.rooms.isEmpty then
    (st, { success := false, message := some "No rooms available!", log := none })
  else if st.students.isEmpty then
    (st, { success := false, message := some "No students available!", log := none })
  else
    let res := allocLoop (visitOrder st.students) st.rooms st.students []
    ({ rooms := res.1, students := res.2.1 },
     { success := true, message := none, log := some res.2.2 })

end HostelSystem

structure Stats where
  total_rooms : Nat
  total_capacity : Int
  occupied_beds : Int
  total_students : Nat
  allocated_students : Nat
  unallocated_students : Int
deriving DecidableEq

/-- Python truthiness of the Optional[str] room field, as tested by
"if s.room" in get_stats: None and the empty string are falsy. -/
def roomTruthy (s : Student) : Bool :=
  match s.room with
  | none => false
  | some n => n != ""

def HostelSystem.get_stats (st : HostelState) : Stats :=
  { total_rooms := st.rooms.length
    total_capacity := (st.rooms.map Room.capacity).sum
    occupied_beds := (st.rooms.map Room.occupied).sum
    total_students := st.students.length
    allocated_students := (st.students.filter roomTruthy).length
    unallocated_students :=
      (st.students.length : Int) - ((st.students.filter roomTruthy).length : Int) }

/-- Core operations of the system, for stating invariant preservation
over arbitrary operation sequences. -/
inductive Op where
  | addRoom (number : String) (capacity floor : Int) (rtype : String)
  | addStudent (sid name gender : String) (year : Int)
  | allocate
deriving DecidableEq

def applyOp (st : HostelState) : Op → HostelState
  | .addRoom n c f t => (HostelSystem.add_room st n c f t).1
  | .addStudent sid nm g y => (HostelSystem.add_student st sid nm g y).1
  | .allocate => (HostelSystem.allocate_rooms st).1

def runOps (st : HostelState) (ops : List Op) : HostelState :=
  ops.foldl applyOp st

/-- Occupancy invariant of a single room (spec section 3). -/
def roomInv (r : Room) : Prop :=
  r.occupied = (r.students.length : Int) ∧ r.occupied ≤ r.capacity

instance (r : Room) : Decidable (roomInv r) := by
  unfold roomInv; infer_instance

def occInv (st : HostelState) : Prop :=
  ∀ r ∈ st.rooms, roomInv r

instance (st : HostelState) : Decidable (occInv st) := by
  unfold occInv; infer_instance

/-- A capacity-domain condition on operations: add_room is called with a
nonnegative capacity. -/
def opCapOK : Op → Prop
  | .addRoom _ c _ _ => 0 ≤ c
  | _ => True

instance (op : Op) : Decidable (opCapOK op) := by
  cases op <;> (unfold opCapOK; infer_instance)

/-- Per-student consistency (spec section 3): an assigned room refers to
a room of the collection whose student list holds that sid exactly once. -/
def studentOk (st : HostelState) (s : Student) : Bool :=
  match s.room with
  | none => true
  | some n => st.rooms.any (fun r => r.number == n && r.students.count s.sid == 1)

def studentInv (st : HostelState) : Prop :=
  ∀ s ∈ st.students, studentOk st s = true

instance (st : HostelState) : Decidable (studentInv st) := by
  unfold studentInv; infer_instance

/-- The immutable attributes of a room (everything allocate_rooms must
not touch). -/
def frameR (r : Room) : String × Int × Int × String :=
  (r.number, r.capacity, r.floor, r.type)

/-- The immutable attributes of a student. -/
def frameS (s : Student) : String × String × String × Int :=
  (s.sid, s.name, s.gender, s.year)

/-! ## Basic list helpers -/

theorem hget_set_ne {α : Type} (v : α) :
    ∀ (l : List α) (i j : Nat), i ≠ j → (l.set i v).get? j = l.get? j := by
  intro l
  induction l with
  | nil => intro i j _; simp
  | cons a t ih =>
    intro i j hij
    cases i with
    | zero =>
      cases j with
      | zero => exact absurd rfl hij
      | succ j0 => simp [List.set]
    | succ i0 =>
      cases j with
      | zero => simp [List.set]
      | succ j0 =>
        simp only [List.set, List.get?]
        exact ih i0 j0 (fun h => hij (by rw [h]))

theorem hget_set_self {α : Type} (v : α) :
    ∀ (l : List α) (i : Nat), i < l.length → (l.set i v).get? i = some v := by
  intro l
  induction l with
  | nil => intro i h; simp at h
  | cons a t ih =>
    intro i h
    cases i with
    | zero => simp [List.set]
    | succ i0 =>
      simp only [List.set, List.get?]
      exact ih i0 (by simpa using h)

theorem hmap_set {α β : Type} (f : α → β) (v : α) :
    ∀ (l : List α) (i : Nat), (l.set i v).map f = (l.map f).set i (f v) := by
  intro l
  induction l with
  | nil => intro i; simp
  | cons a t ih =>
    intro i
    cases i with
    | zero => simp [List.set]
    | succ i0 => simp [List.set, ih i0]

theorem hset_of_get? {α : Type} (a : α) :
    ∀ (l : List α) (i : Nat), l.get? i = some a → l.set i a = l := by
  intro l
  induction l with
  | nil => intro i h; simp at h
  | cons b t ih =>
    intro i h
    cases i with
    | zero => simp only [List.get?] at h; simp [List.set, Option.some_inj.mp h]
    | succ i0 => simp only [List.get?] at h; simp [List.set, ih i0 h]

theorem hget_map {α β : Type} (f : α → β) :
    ∀ (l : List α) (i : Nat), (l.map f).get? i = (l.get? i).map f := by
  intro l
  induction l with
  | nil => intro i; simp
  | cons a t ih =>
    intro i
    cases i with
    | zero => simp
    | succ i0 => simpa using ih i0

/-! ## Indexed students -/

theorem withIdxFrom_mem_get? :
    ∀ (l : List Student) (k : Nat) (p : Nat × Student), p ∈ withIdxFrom k l →
      k ≤ p.1 ∧ l.get? (p.1 - k) = some p.2 := by
  intro l
  induction l with
  | nil => intro k p h; simp [withIdxFrom] at h
  | cons s ss ih =>
    intro k p h
    simp only [withIdxFrom, List.mem_cons] at h
    rcases h with h | h
    · subst h; simp
    · obtain ⟨h1, h2⟩ := ih (k + 1) p h
      refine ⟨by omega, ?_⟩
      have he : p.1 - k = (p.1 - (k + 1)) + 1 := by omega
      rw [he]
      simpa using h2

theorem withIdx_mem_get? (l : List Student) (p : Nat × Student) (h : p ∈ withIdx l) :
    l.get? p.1 = some p.2 := by
  have := (withIdxFrom_mem_get? l 0 p h).2
  simpa using this

theorem withIdxFrom_mem_of_get? :
    ∀ (l : List Student) (k j : Nat) (s : Student), l.get? j = some s →
      (k + j, s) ∈ withIdxFrom k l := by
  intro l
  induction l with
  | nil => intro k j s h; simp at h
  | cons a t ih =>
    intro k j s h
    cases j with
    | zero =>
      simp only [List.get?, Option.some_inj] at h
      simp [withIdxFrom, h]
    | succ j0 =>
      simp only [List.get?] at h
      have := ih (k + 1) j0 s h
      have he : k + (j0 + 1) = (k + 1) + j0 := by omega
      rw [he]
      simp [withIdxFrom, this]

theorem withIdx_mem_of_get? (l : List Student) (j : Nat) (s : Student)
    (h : l.get? j = some s) : (j, s) ∈ withIdx l := by
  have := withIdxFrom_mem_of_get? l 0 j s h
  simpa using this

theorem withIdxFrom_pairwise :
    ∀ (l : List Student) (k : Nat),
      (withIdxFrom k l).Pairwise (fun p q => p.1 < q.1) := by
  intro l
  induction l with
  | nil => intro k; simp [withIdxFrom]
  | cons s ss ih =>
    intro k
    refine List.Pairwise.cons ?_ (ih (k + 1))
    intro q hq
    have := (withIdxFrom_mem_get? ss (k + 1) q hq).1
    omega

/-! ## The stable year-descending sort -/

/-- Strict order realised by Python's stable sorted(key=year,
reverse=True) on index-tagged students: earlier output means strictly
greater year, or equal year and smaller original index. -/
def keyLt (p q : Nat × Student) : Prop :=
  q.2.year < p.2.year ∨ (p.2.year = q.2.year ∧ p.1 < q.1)

theorem insertYearDesc_perm (p : Nat × Student) :
    ∀ l, (insertYearDesc p l).Perm (p :: l) := by
  intro l
  induction l with
  | nil => simp [insertYearDesc]
  | cons q qs ih =>
    by_cases h : q.2.year ≤ p.2.year
    · simp [insertYearDesc, h]
    · simp only [insertYearDesc, if_neg h]
      exact List.Perm.trans (ih.cons q) (List.Perm.swap p q qs)

theorem sortYearDesc_perm : ∀ l, (sortYearDesc l).Perm l := by
  intro l
  induction l with
  | nil => simp [sortYearDesc]
  | cons p ps ih =>
    exact List.Perm.trans (insertYearDesc_perm p (sortYearDesc ps)) (ih.cons p)

theorem insertYearDesc_pairwise (p : Nat × Student) :
    ∀ l, l.Pairwise keyLt → (∀ q ∈ l, p.1 < q.1) →
      (insertYearDesc p l).Pairwise keyLt := by
  intro l
  induction l with
  | nil => intro _ _; simp [insertYearDesc, List.Pairwise.cons]
  | cons q qs ih =>
    intro hpw hlt
    rw [List.pairwise_cons] at hpw
    obtain ⟨hq, hqs⟩ := hpw
    by_cases h : q.2.year ≤ p.2.year
    · simp only [insertYearDesc, if_pos h]
      refine List.Pairwise.cons ?_ (List.Pairwise.cons hq hqs)
      intro x hx
      rcases List.mem_cons.mp hx with hx | hx
      · subst hx
        have hi := hlt x (List.mem_cons_self x qs)
        rcases lt_or_eq_of_le h with h1 | h1
        · exact Or.inl h1
        · exact Or.inr ⟨h1.symm, hi⟩
      · have hkq := hq x hx
        have hi := hlt x (List.mem_cons_of_mem q hx)
        rcases hkq with h1 | ⟨h1, _⟩
        · exact Or.inl (lt_of_lt_of_le h1 h)
        · rcases lt_or_eq_of_le h with h2 | h2
          · exact Or.inl (h1 ▸ h2)
          · exact Or.inr ⟨by omega, hi⟩
    · simp only [insertYearDesc, if_neg h]
      have hins := ih hqs (fun x hx => hlt x (List.mem_cons_of_mem q hx))
      refine List.Pairwise.cons ?_ hins
      intro x hx
      have hx2 : x ∈ p :: qs := (insertYearDesc_perm p qs).mem_iff.mp hx
      rcases List.mem_cons.mp hx2 with hx2 | hx2
      · subst hx2; exact Or.inl (by omega)
      · exact hq x hx2

theorem sortYearDesc_pairwise :
    ∀ l, l.Pairwise (fun p q => p.1 < q.1) → (sortYearDesc l).Pairwise keyLt := by
  intro l
  induction l with
  | nil => intro _; simp [sortYearDesc]
  | cons p ps ih =>
    intro hpw
    rw [List.pairwise_cons] at hpw
    obtain ⟨hp, hps⟩ := hpw
    refine insertYearDesc_pairwise p (sortYearDesc ps) (ih hps) ?_
    intro q hq
    exact hp q ((sortYearDesc_perm ps).mem_iff.mp hq)

/-! ## Room scan lemmas -/

theorem is_available_iff (r : Room) : r.is_available = true ↔ r.occupied < r.capacity := by
  simp [Room.is_available]

theorem allocScan_all_full (sid : String) :
    ∀ rooms, (∀ r ∈ rooms, r.is_available = false) → allocScan sid rooms = (rooms, none) := by
  intro rooms
  induction rooms with
  | nil => intro _; simp [allocScan]
  | cons r rs ih =>
    intro h
    have hr := h r (List.mem_cons_self r rs)
    have hrs := ih (fun x hx => h x (List.mem_cons_of_mem r hx))
    simp [allocScan, hr, hrs]

theorem allocScan_none_fst (sid : String) :
    ∀ rooms, (allocScan sid rooms).2 = none → (allocScan sid rooms).1 = rooms := by
  intro rooms
  induction rooms with
  | nil => intro _; simp [allocScan]
  | cons r rs ih =>
    intro h
    by_cases hr : r.is_available
    · simp [allocScan, hr] at h
    · simp only [allocScan, if_neg hr] at h ⊢
      simp [ih h]

theorem allocScan_first_fit (sid : String) (r : Room) (post : List Room)
    (hr : r.is_available = true) :
    ∀ pre, (∀ x ∈ pre, x.is_available = false) →
      allocScan sid (pre ++ r :: post) =
        (pre ++ { r with students := r.students ++ [sid],
                         occupied := r.occupied + 1 } :: post,
         some r.number) := by
  intro pre
  induction pre with
  | nil => intro _; simp [allocScan, hr, Room.add_student]
  | cons x xs ih =>
    intro h
    have hx := h x (List.mem_cons_self x xs)
    have hxs := ih (fun y hy => h y (List.mem_cons_of_mem x hy))
    simp [allocScan, hx, hxs]

theorem allocScan_frame (sid : String) :
    ∀ rooms, ((allocScan sid rooms).1).map frameR = rooms.map frameR := by
  intro rooms
  induction rooms with
  | nil => simp [allocScan]
  | cons r rs ih =>
    by_cases hr : r.is_available
    · simp [allocScan, hr, Room.add_student, frameR]
    · simp only [allocScan, if_neg hr]
      simp [ih]

theorem allocScan_inv (sid : String) :
    ∀ rooms, (∀ r ∈ rooms, roomInv r) → ∀ x ∈ (allocScan sid rooms).1, roomInv x := by
  intro rooms
  induction rooms with
  | nil => intro _ x hx; simp [allocScan] at hx
  | cons r rs ih =>
    intro h x hx
    have hr0 := h r (List.mem_cons_self r rs)
    by_cases hr : r.is_available
    · simp only [allocScan, if_pos hr, Room.add_student, hr, if_true] at hx
      rcases List.mem_cons.mp hx with hx | hx
      · subst hx
        obtain ⟨h1, h2⟩ := hr0
        have h3 := (is_available_iff r).mp hr
        refine ⟨?_, ?_⟩
        · show r.occupied + 1 = ((r.students ++ [sid]).length : Int)
          simp [h1]
        · show r.occupied + 1 ≤ r.capacity
          omega
      · exact h x (List.mem_cons_of_mem r hx)
    · simp only [allocScan, if_neg hr] at hx
      rcases List.mem_cons.mp hx with hx | hx
      · subst hx; exact hr0
      · exact ih (fun y hy => h y (List.mem_cons_of_mem r hy)) x hx

/-! ## Allocation loop lemmas -/

theorem allocLoop_nil (rooms : List Room) (students : List Student) (log : List LogEntry) :
    allocLoop [] rooms students log = (rooms, students, log) := rfl

theorem allocLoop_cons_success (i : Nat) (s : Student) (rest : List (Nat × Student))
    (rooms rooms1 : List Room) (students : List Student) (log : List LogEntry)
    (num : String) (h : allocScan s.sid rooms = (rooms1, some num)) :
    allocLoop ((i, s) :: rest) rooms students log =
      allocLoop rest rooms1 (students.set i { s with room := some num })
        (log ++ [{ student := s.name, room := some num, status := "success" }]) := by
  simp only [allocLoop]
  rw [h]

theorem allocLoop_cons_fail (i : Nat) (s : Student) (rest : List (Nat × Student))
    (rooms rooms1 : List Room) (students : List Student) (log : List LogEntry)
    (h : allocScan s.sid rooms = (rooms1, none)) :
    allocLoop ((i, s) :: rest) rooms students log =
      allocLoop rest rooms1 students
        (log ++ [{ student := s.name, room := none, status := "failed" }]) := by
  simp only [allocLoop]
  rw [h]

theorem allocLoop_log_length :
    ∀ (visits : List (Nat × Student)) (rooms : List Room) (students : List Student)
      (log : List LogEntry),
      ((allocLoop visits rooms students log).2.2).length = log.length + visits.length := by
  intro visits
  induction visits with
  | nil => intro rooms students log; simp [allocLoop_nil]
  | cons p rest ih =>
    intro rooms students log
    obtain ⟨i, s⟩ := p
    cases hsc : allocScan s.sid rooms with
    | mk rooms1 res =>
      cases res with
      | some num =>
        rw [allocLoop_cons_success i s rest rooms rooms1 students log num hsc, ih]
        simp
        omega
      | none =>
        rw [allocLoop_cons_fail i s rest rooms rooms1 students log hsc, ih]
        simp
        omega

theorem allocLoop_rooms_frame :
    ∀ (visits : List (Nat × Student)) (rooms : List Room) (students : List Student)
      (log : List LogEntry),
      ((allocLoop visits rooms students log).1).map frameR = rooms.map frameR := by
  intro visits
  induction visits with
  | nil => intro rooms students log; simp [allocLoop_nil]
  | cons p rest ih =>
    intro rooms students log
    obtain ⟨i, s⟩ := p
    cases hsc : allocScan s.sid rooms with
    | mk rooms1 res =>
      have hfr : rooms1.map frameR = rooms.map frameR := by
        have := allocScan_frame s.sid rooms
        rw [hsc] at this
        exact this
      cases res with
      | some num =>
        rw [allocLoop_cons_success i s rest rooms rooms1 students log num hsc, ih, hfr]
      | none =>
        rw [allocLoop_cons_fail i s rest rooms rooms1 students log hsc, ih, hfr]

theorem allocLoop_rooms_inv :
    ∀ (visits : List (Nat × Student)) (rooms : List Room) (students : List Student)
      (log : List LogEntry),
      (∀ r ∈ rooms, roomInv r) → ∀ x ∈ (allocLoop visits rooms students log).1, roomInv x := by
  intro visits
  induction visits with
  | nil => intro rooms students log h x hx; rw [allocLoop_nil] at hx; exact h x hx
  | cons p rest ih =>
    intro rooms students log h x hx
    obtain ⟨i, s⟩ := p
    cases hsc : allocScan s.sid rooms with
    | mk rooms1 res =>
      have hinv1 : ∀ r ∈ rooms1, roomInv r := by
        intro r hr
        have := allocScan_inv s.sid rooms h
        rw [hsc] at this
        exact this r hr
      cases res with
      | some num =>
        rw [allocLoop_cons_success i s rest rooms rooms1 students log num hsc] at hx
        exact ih rooms1 _ _ hinv1 x hx
      | none =>
        rw [allocLoop_cons_fail i s rest rooms rooms1 students log hsc] at hx
        exact ih rooms1 _ _ hinv1 x hx

theorem allocLoop_untouched :
    ∀ (visits : List (Nat × Student)) (rooms : List Room) (students : List Student)
      (log : List LogEntry) (j : Nat),
      (∀ p ∈ visits, p.1 ≠ j) →
      ((allocLoop visits rooms students log).2.1).get? j = students.get? j := by
  intro visits
  induction visits with
  | nil => intro rooms students log j _; rw [allocLoop_nil]
  | cons p rest ih =>
    intro rooms students log j hj
    obtain ⟨i, s⟩ := p
    have hij : i ≠ j := hj (i, s) (List.mem_cons_self _ _)
    have hrest : ∀ q ∈ rest, q.1 ≠ j := fun q hq => hj q (List.mem_cons_of_mem _ hq)
    cases hsc : allocScan s.sid rooms with
    | mk rooms1 res =>
      cases res with
      | some num =>
        rw [allocLoop_cons_success i s rest rooms rooms1 students log num hsc,
          ih rooms1 _ _ j hrest]
        exact hget_set_ne _ students i j hij
      | none =>
        rw [allocLoop_cons_fail i s rest rooms rooms1 students log hsc,
          ih rooms1 _ _ j hrest]

theorem allocLoop_students_frame :
    ∀ (visits : List (Nat × Student)) (rooms : List Room) (students : List Student)
      (log : List LogEntry),
      (∀ p ∈ visits, students.get? p.1 = some p.2) →
      visits.Pairwise (fun p q => p.1 ≠ q.1) →
      ((allocLoop visits rooms students log).2.1).map frameS = students.map frameS := by
  intro visits
  induction visits with
  | nil => intro rooms students log _ _; rw [allocLoop_nil]
  | cons p rest ih =>
    intro rooms students log hget hpw
    obtain ⟨i, s⟩ := p
    rw [List.pairwise_cons] at hpw
    obtain ⟨hne, hpw2⟩ := hpw
    have hi : students.get? i = some s := hget (i, s) (List.mem_cons_self _ _)
    cases hsc : allocScan s.sid rooms with
    | mk rooms1 res =>
      cases res with
      | some num =>
        rw [allocLoop_cons_success i s rest rooms rooms1 students log num hsc]
        have hget2 : ∀ q ∈ rest,
            (students.set i { s with room := some num }).get? q.1 = some q.2 := by
          intro q hq
          rw [hget_set_ne _ students i q.1 (hne q hq)]
          exact hget q (List.mem_cons_of_mem _ hq)
        rw [ih rooms1 _ _ hget2 hpw2]
        rw [hmap_set frameS _ students i]
        have : frameS { s with room := some num } = frameS s := rfl
        rw [this]
        apply hset_of_get?
        rw [hget_map frameS students i, hi]
        rfl
      | none =>
        rw [allocLoop_cons_fail i s rest rooms rooms1 students log hsc]
        exact ih rooms1 _ _ (fun q hq => hget q (List.mem_cons_of_mem _ hq)) hpw2

theorem allocLoop_noassign :
    ∀ (visits : List (Nat × Student)) (rooms : List Room) (students : List Student)
      (log : List LogEntry),
      (∀ p ∈ visits, students.get? p.1 = some p.2) →
      visits.Pairwise (fun p q => p.1 ≠ q.1) →
      (∀ s ∈ (allocLoop visits rooms students log).2.1, s.room = none) →
      (allocLoop visits rooms students log).1 = rooms ∧
        (allocLoop visits rooms students log).2.1 = students := by
  intro visits
  induction visits with
  | nil => intro rooms students log _ _ _; rw [allocLoop_nil]; exact ⟨rfl, rfl⟩
  | cons p rest ih =>
    intro rooms students log hget hpw hall
    obtain ⟨i, s⟩ := p
    rw [List.pairwise_cons] at hpw
    obtain ⟨hne, hpw2⟩ := hpw
    have hi : students.get? i = some s := hget (i, s) (List.mem_cons_self _ _)
    have hilen : i < students.length := by
      rw [List.get?_eq_some] at hi
      exact hi.1
    cases hsc : allocScan s.sid rooms with
    | mk rooms1 res =>
      cases res with
      | some num =>
        exfalso
        rw [allocLoop_cons_success i s rest rooms rooms1 students log num hsc] at hall
        have huntouched := allocLoop_untouched rest rooms1
          (students.set i { s with room := some num })
          (log ++ [{ student := s.name, room := some num, status := "success" }]) i
          (fun q hq => fun he => (hne q hq) he.symm)
        have hself : (students.set i { s with room := some num }).get? i =
            some { s with room := some num } :=
          hget_set_self _ students i hilen
        rw [hself] at huntouched
        have hmem := List.get?_mem huntouched
        have := hall _ hmem
        simp at this
      | none =>
        rw [allocLoop_cons_fail i s rest rooms rooms1 students log hsc] at hall ⊢
        have hr1 : rooms1 = rooms := by
          have h2 : (allocScan s.sid rooms).2 = none := by rw [hsc]
          have h1 := allocScan_none_fst s.sid rooms h2
          rw [hsc] at h1
          exact h1
        rw [hr1] at hall ⊢
        exact ih rooms _ _ (fun q hq => hget q (List.mem_cons_of_mem _ hq)) hpw2 hall

/-! ## Visitation order lemmas -/

theorem sorted_keyLt (l : List Student) :
    (sortYearDesc (withIdx l)).Pairwise keyLt :=
  sortYearDesc_pairwise (withIdx l) (withIdxFrom_pairwise l 0)

theorem sorted_fst_ne (l : List Student) :
    (sortYearDesc (withIdx l)).Pairwise (fun p q => p.1 ≠ q.1) := by
  have hsym : ∀ p q : Nat × Student, p.1 ≠ q.1 → q.1 ≠ p.1 := fun p q h => h.symm
  have hperm := sortYearDesc_perm (withIdx l)
  rw [hperm.pairwise_iff (fun hab => hsym _ _ hab)]
  exact (withIdxFrom_pairwise l 0).imp (fun h => Nat.ne_of_lt h)

theorem mem_inj_fst :
    ∀ (l : List (Nat × Student)), l.Pairwise (fun p q => p.1 ≠ q.1) →
      ∀ p ∈ l, ∀ q ∈ l, p.1 = q.1 → p = q := by
  intro l
  induction l with
  | nil => intro _ p hp; simp at hp
  | cons a t ih =>
    intro hpw p hp q hq he
    rw [List.pairwise_cons] at hpw
    obtain ⟨ha, hpw2⟩ := hpw
    rcases List.mem_cons.mp hp with hp | hp <;> rcases List.mem_cons.mp hq with hq | hq
    · rw [hp, hq]
    · exact absurd he (hp ▸ ha q hq)
    · exact absurd he.symm (hq ▸ ha p hp)
    · exact ih hpw2 p hp q hq he

theorem visitOrder_mem_sorted (l : List Student) (p : Nat × Student)
    (h : p ∈ visitOrder l) : p ∈ sortYearDesc (withIdx l) := by
  unfold visitOrder at h
  rcases List.mem_append.mp h with h | h <;>
    exact (List.mem_filter.mp h).1

theorem visitOrder_get? (l : List Student) :
    ∀ p ∈ visitOrder l, l.get? p.1 = some p.2 := by
  intro p hp
  have h1 : p ∈ withIdx l :=
    (sortYearDesc_perm (withIdx l)).mem_iff.mp (visitOrder_mem_sorted l p hp)
  exact withIdx_mem_get? l p h1

theorem visitOrder_mem_iff (l : List Student) (p : Nat × Student) :
    p ∈ visitOrder l ↔
      p ∈ withIdx l ∧ (genderOf p.2 = "male" ∨ genderOf p.2 = "female") := by
  unfold visitOrder
  simp only [List.mem_append, List.mem_filter]
  constructor
  · intro h
    rcases h with ⟨hm, hg⟩ | ⟨hm, hg⟩
    · exact ⟨(sortYearDesc_perm (withIdx l)).mem_iff.mp hm, Or.inl (beq_iff_eq.mp hg)⟩
    · exact ⟨(sortYearDesc_perm (withIdx l)).mem_iff.mp hm, Or.inr (beq_iff_eq.mp hg)⟩
  · intro ⟨hm, hg⟩
    have hm2 : p ∈ sortYearDesc (withIdx l) :=
      (sortYearDesc_perm (withIdx l)).mem_iff.mpr hm
    rcases hg with hg | hg
    · exact Or.inl ⟨hm2, beq_iff_eq.mpr hg⟩
    · exact Or.inr ⟨hm2, beq_iff_eq.mpr hg⟩

theorem visitOrder_pairwise_ne (l : List Student) :
    (visitOrder l).Pairwise (fun p q => p.1 ≠ q.1) := by
  unfold visitOrder
  rw [List.pairwise_append]
  have hs := sorted_fst_ne l
  refine ⟨hs.sublist (List.filter_sublist _), hs.sublist (List.filter_sublist _), ?_⟩
  intro p hp q hq he
  have hp2 := List.mem_filter.mp hp
  have hq2 := List.mem_filter.mp hq
  have hpq := mem_inj_fst _ hs p hp2.1 q hq2.1 he
  rw [hpq] at hp2
  have h1 := beq_iff_eq.mp hp2.2
  have h2 := beq_iff_eq.mp hq2.2
  rw [h1] at h2
  exact absurd h2 (by decide)

theorem visitOrder_not_mem_fst (l : List Student) (j : Nat) (s : Student)
    (hj : l.get? j = some s)
    (hg1 : genderOf s ≠ "male") (hg2 : genderOf s ≠ "female") :
    ∀ p ∈ visitOrder l, p.1 ≠ j := by
  intro p hp he
  have hget := visitOrder_get? l p hp
  rw [he, hj] at hget
  have hps : p.2 = s := (Option.some_inj.mp hget).symm
  have := (visitOrder_mem_iff l p).mp hp
  rcases this.2 with h | h
  · exact hg1 (hps ▸ h)
  · exact hg2 (hps ▸ h)

/-! ## Top-level allocate_rooms case lemmas -/

theorem allocate_rooms_empty_rooms (st : HostelState) (h : st.rooms = []) :
    HostelSystem.allocate_rooms st =
      (st, { success := false, message := some "No rooms available!", log := none }) := by
  simp [HostelSystem.allocate_rooms, List.isEmpty_iff, h]

theorem allocate_rooms_empty_students (st : HostelState) (h1 : st.rooms ≠ [])
    (h2 : st.students = []) :
    HostelSystem.allocate_rooms st =
      (st, { success := false, message := some "No students available!", log := none }) := by
  simp [HostelSystem.allocate_rooms, List.isEmpty_iff, h1, h2]

theorem allocate_rooms_run (st : HostelState) (h1 : st.rooms ≠ []) (h2 : st.students ≠ []) :
    HostelSystem.allocate_rooms st =
      ({ rooms := (allocLoop (visitOrder st.students) st.rooms st.students []).1,
         students := (allocLoop (visitOrder st.students) st.rooms st.students []).2.1 },
       { success := true, message := none,
         log := some ((allocLoop (visitOrder st.students) st.rooms st.students []).2.2) }) := by
  simp [HostelSystem.allocate_rooms, List.isEmpty_iff, h1, h2]

theorem allocate_rooms_occInv (st : HostelState) (h : occInv st) :
    occInv (HostelSystem.allocate_rooms st).1 := by
  by_cases h1 : st.rooms = []
  · rw [allocate_rooms_empty_rooms st h1]; exact h
  · by_cases h2 : st.students = []
    · rw [allocate_rooms_empty_students st h1 h2]; exact h
    · rw [allocate_rooms_run st h1 h2]
      exact allocLoop_rooms_inv (visitOrder st.students) st.rooms st.students [] h

/-! ## Concrete states used by scenario parts, witnesses and counterexamples -/

def hostelEmpty : HostelState := { rooms := [], students := [] }

def fullRoom : Room :=
  { number := "102", capacity := 1, floor := 0, type := "Standard",
    occupied := 1, students := ["S9"] }

def scenarioC2 : HostelState :=
  { rooms := [mkRoom "101" 1 1 "Standard"],
    students := [mkStudent "S1" "S1" "male" 2, mkStudent "S2" "S2" "male" 3] }

def statsState : HostelState :=
  { rooms := [{ number := "101", capacity := 2, floor := 1, type := "Standard",
                occupied := 1, students := ["S1"] },
              { number := "102", capacity := 3, floor := 1, type := "Standard",
                occupied := 0, students := [] }],
    students := [{ sid := "S1", name := "A", gender := "male", year := 1,
                   room := some "101" },
                 mkStudent "S2" "B" "male" 1,
                 mkStudent "S3" "C" "female" 2] }

def statsCex : HostelState :=
  { rooms := [],
    students := [{ sid := "S1", name := "A", gender := "male", year := 1,
                   room := some "" }] }

def bugState : HostelState :=
  { rooms := [mkRoom "101" 2 1 "Standard"],
    students := [mkStudent "S1" "Alice" "male" 1] }

def noFitState : HostelState :=
  { rooms := [fullRoom], students := [mkStudent "S1" "Bob" "male" 1] }

def otherGenderState : HostelState :=
  { rooms := [mkRoom "101" 2 0 "Standard"],
    students := [mkStudent "S1" "Pat" "other" 3] }

/-! ## Claim theorems -/

/-- C4: is_available returns true exactly when occupied < capacity;
add_student on an available room appends the id, increments occupied and
returns true, and on a full room performs no mutation and returns false. -/
theorem alloc_C4_room_ops (r : Room) (sid : String) :
    (r.is_available = true ↔ r.occupied < r.capacity) ∧
    (r.occupied < r.capacity →
      r.add_student sid =
        ({ r with students := r.students ++ [sid], occupied := r.occupied + 1 }, true)) ∧
    (¬ r.occupied < r.capacity → r.add_student sid = (r, false)) := by
  refine ⟨is_available_iff r, ?_, ?_⟩
  · intro h
    simp [Room.add_student, Room.is_available, h]
  · intro h
    simp [Room.add_student, Room.is_available, h]

/-- Witness for C4: the two add_student branches at concrete rooms. -/
theorem alloc_C4_room_ops_witness :
    (mkRoom "101" 1 0 "Standard").add_student "S1" =
      ({ number := "101", capacity := 1, floor := 0, type := "Standard",
         occupied := 1, students := ["S1"] }, true) ∧
    fullRoom.add_student "S2" = (fullRoom, false) := by
  constructor
  · exact ((alloc_C4_room_ops (mkRoom "101" 1 0 "Standard") "S1").2.1
      (by decide)).trans (by decide)
  · exact (alloc_C4_room_ops fullRoom "S2").2.2 (by decide)

/-- C10: add_room and add_student perform no uniqueness or domain
validation: they unconditionally append a fresh entity (occupied = 0,
empty student list / room = none) and return true, so duplicate keys can
coexist in the collections. -/
theorem alloc_C10_no_validation :
    (∀ (st : HostelState) (n : String) (c f : Int) (t : String),
      HostelSystem.add_room st n c f t =
        ({ st with rooms := st.rooms ++
            [{ number := n, capacity := c, floor := f, type := t,
               occupied := 0, students := [] }] }, true)) ∧
    (∀ (st : HostelState) (sid nm g : String) (y : Int),
      HostelSystem.add_student st sid nm g y =
        ({ st with students := st.students ++
            [{ sid := sid, name := nm, gender := g, year := y, room := none }] }, true)) ∧
    ((HostelSystem.add_room (HostelSystem.add_room hostelEmpty "101" 2 1 "Standard").1
        "101" 2 1 "Standard").1.rooms.filter (fun r => r.number == "101")).length = 2 ∧
    ((HostelSystem.add_student (HostelSystem.add_student hostelEmpty "S1" "A" "male" 1).1
        "S1" "B" "male" 2).1.students.filter (fun s => s.sid == "S1")).length = 2 :=
  ⟨fun _ _ _ _ _ => rfl, fun _ _ _ _ _ => rfl, by decide, by decide⟩

/-- C5: with an empty room collection allocate_rooms returns the
"No rooms available!" failure with no log and no mutation; with rooms
but no students it returns the "No students available!" failure with no
log and no mutation; in every other case it returns success (so these
two are the only failure outcomes, and none is an exception). -/
theorem alloc_C5_short_circuit (st : HostelState) :
    (st.rooms = [] →
      HostelSystem.allocate_rooms st =
        (st, { success := false, message := some "No rooms available!", log := none })) ∧
    (st.rooms ≠ [] → st.students = [] →
      HostelSystem.allocate_rooms st =
        (st, { success := false, message := some "No students available!", log := none })) ∧
    (st.rooms ≠ [] → st.students ≠ [] →
      (HostelSystem.allocate_rooms st).2.success = true ∧
      (HostelSystem.allocate_rooms st).2.message = none ∧
      (HostelSystem.allocate_rooms st).2.log ≠ none) := by
  refine ⟨fun h => allocate_rooms_empty_rooms st h,
          fun h1 h2 => allocate_rooms_empty_students st h1 h2, fun h1 h2 => ?_⟩
  rw [allocate_rooms_run st h1 h2]
  exact ⟨rfl, rfl, by simp⟩

/-- Witness for C5: both failure branches and the success branch at
concrete states. -/
theorem alloc_C5_short_circuit_witness :
    HostelSystem.allocate_rooms { rooms := [], students := [mkStudent "S1" "A" "male" 1] } =
      ({ rooms := [], students := [mkStudent "S1" "A" "male" 1] },
       { success := false, message := some "No rooms available!", log := none }) ∧
    HostelSystem.allocate_rooms { rooms := [fullRoom], students := [] } =
      ({ rooms := [fullRoom], students := [] },
       { success := false, message := some "No students available!", log := none }) ∧
    (HostelSystem.allocate_rooms scenarioC2).2.success = true :=
  ⟨(alloc_C5_short_circuit _).1 rfl,
   (alloc_C5_short_circuit _).2.1 (by decide) rfl,
   ((alloc_C5_short_circuit scenarioC2).2.2 (by decide) (by decide)).1⟩

/-- C6 (code bug witness): the student consistency invariant — an
assigned student's id appears exactly once in the list of the room it
names — holds initially and after one allocation pass on bugState, but a
second allocate_rooms call re-allocates the already-housed student,
leaving their id twice in room 101's list and breaking the invariant. -/
theorem alloc_C6_double_allocation_bug :
    studentInv bugState ∧
    studentInv (HostelSystem.allocate_rooms bugState).1 ∧
    ¬ studentInv (HostelSystem.allocate_rooms (HostelSystem.allocate_rooms bugState).1).1 ∧
    ((HostelSystem.allocate_rooms (HostelSystem.allocate_rooms bugState).1).1).rooms =
      [{ number := "101", capacity := 2, floor := 1, type := "Standard",
         occupied := 2, students := ["S1", "S1"] }] := by
  refine ⟨by decide, by decide, by decide, by decide⟩

/-- C8 (amended): get_stats returns the room count, capacity sum,
occupied sum, student count, the count of students whose room field is
truthy (non-null and non-empty — Python's "if s.room"), and unallocated
as total minus that count; plus the concrete statistics scenario. -/
theorem alloc_C8_get_stats :
    (∀ st : HostelState,
      (HostelSystem.get_stats st).total_rooms = st.rooms.length ∧
      (HostelSystem.get_stats st).total_capacity = (st.rooms.map Room.capacity).sum ∧
      (HostelSystem.get_stats st).occupied_beds = (st.rooms.map Room.occupied).sum ∧
      (HostelSystem.get_stats st).total_students = st.students.length ∧
      (HostelSystem.get_stats st).allocated_students =
        (st.students.filter roomTruthy).length ∧
      (HostelSystem.get_stats st).unallocated_students +
          ((HostelSystem.get_stats st).allocated_students : Int) =
        ((HostelSystem.get_stats st).total_students : Int)) ∧
    HostelSystem.get_stats statsState =
      { total_rooms := 2, total_capacity := 5, occupied_beds := 1,
        total_students := 3, allocated_students := 1, unallocated_students := 2 } := by
  refine ⟨fun st => ⟨rfl, rfl, rfl, rfl, rfl, ?_⟩, by decide⟩
  show (st.students.length : Int) - ((st.students.filter roomTruthy).length : Int) +
      ((st.students.filter roomTruthy).length : Int) = (st.students.length : Int)
  omega

/-- Counterexample for C8 as frozen: a student whose assigned room is
the non-null empty string is not counted by get_stats (Python
truthiness), though the claim counts every non-null room. -/
theorem alloc_C8_get_stats_cex :
    (HostelSystem.get_stats statsCex).allocated_students = 0 ∧
    (statsCex.students.filter (fun s => s.room.isSome)).length = 1 := by
  refine ⟨by decide, by decide⟩

theorem applyOp_occInv : ∀ (st : HostelState) (op : Op),
    occInv st → opCapOK op → occInv (applyOp st op) := by
  intro st op h hc
  cases op with
  | addRoom n c f t =>
    intro r hr
    simp only [applyOp, HostelSystem.add_room, List.mem_append,
      List.mem_singleton] at hr
    rcases hr with hr | hr
    · exact h r hr
    · subst hr
      refine ⟨?_, ?_⟩
      · show (0 : Int) = ((([] : List String)).length : Int)
        simp
      · show (0 : Int) ≤ c
        exact hc
  | addStudent sid nm g y =>
    intro r hr
    exact h r hr
  | allocate => exact allocate_rooms_occInv st h

theorem runOps_occInv : ∀ (ops : List Op) (st : HostelState),
    occInv st → (∀ op ∈ ops, opCapOK op) → occInv (runOps st ops) := by
  intro ops
  induction ops with
  | nil => intro st h _; exact h
  | cons op rest ih =>
    intro st h hc
    exact ih (applyOp st op) (applyOp_occInv st op h (hc op (List.mem_cons_self _ _)))
      (fun x hx => hc x (List.mem_cons_of_mem _ hx))

/-- C1 (amended): starting from a state satisfying the occupancy
invariant (occupied equals length of students and never exceeds
capacity, for every room), every sequence of core operations preserves
it at all times — provided every add_room operation is invoked with a
nonnegative capacity.  The one-step conjunct gives the invariant after
every intermediate state of the sequence. -/
theorem alloc_C1_occupancy_invariant :
    (∀ (st : HostelState) (op : Op), occInv st → opCapOK op → occInv (applyOp st op)) ∧
    (∀ (st : HostelState) (ops : List Op), occInv st → (∀ op ∈ ops, opCapOK op) →
      occInv (runOps st ops)) :=
  ⟨applyOp_occInv, fun st ops h hc => runOps_occInv ops st h hc⟩

/-- Witness for C1: a concrete operation sequence preserving the
invariant. -/
theorem alloc_C1_occupancy_invariant_witness :
    occInv (runOps hostelEmpty
      [Op.addRoom "101" 2 0 "Standard", Op.addStudent "S1" "Ann" "male" 1,
       Op.allocate]) :=
  alloc_C1_occupancy_invariant.2 hostelEmpty _ (by decide) (by decide)

/-- Counterexample for C1 as frozen: add_room accepts a negative
capacity and creates a room with occupied = 0 > capacity, so the
invariant does not survive arbitrary core-operation sequences. -/
theorem alloc_C1_occupancy_invariant_cex :
    occInv hostelEmpty ∧
    ¬ occInv (runOps hostelEmpty [Op.addRoom "101" (-1) 0 "Standard"]) := by
  refine ⟨by decide, by decide⟩

/-- C2: the scan assigns each visited student to the first available
room in stored order (first-fit); with no available room in the whole
scan the student stays unassigned and a failure entry is logged; the
pass never aborts — the log has one entry per visited student; and the
concrete two-students-one-bed scenario. -/
theorem alloc_C2_first_fit :
    (∀ (sid : String) (pre post : List Room) (r : Room),
      (∀ x ∈ pre, x.is_available = false) → r.is_available = true →
      allocScan sid (pre ++ r :: post) =
        (pre ++ { r with students := r.students ++ [sid],
                         occupied := r.occupied + 1 } :: post, some r.number)) ∧
    (∀ (sid : String) (rooms : List Room),
      (∀ x ∈ rooms, x.is_available = false) → allocScan sid rooms = (rooms, none)) ∧
    (∀ st : HostelState, st.rooms ≠ [] → st.students ≠ [] →
      ∃ l, (HostelSystem.allocate_rooms st).2.log = some l ∧
        l.length = (visitOrder st.students).length) ∧
    HostelSystem.allocate_rooms scenarioC2 =
      ({ rooms := [{ number := "101", capacity := 1, floor := 1, type := "Standard",
                     occupied := 1, students := ["S2"] }],
         students := [mkStudent "S1" "S1" "male" 2,
                      { sid := "S2", name := "S2", gender := "male", year := 3,
                        room := some "101" }] },
       { success := true, message := none,
         log := some [{ student := "S2", room := some "101", status := "success" },
                      { student := "S1", room := none, status := "failed" }] }) := by
  refine ⟨fun sid pre post r h1 h2 => allocScan_first_fit sid r post h2 pre h1,
          fun sid rooms h => allocScan_all_full sid rooms h,
          fun st h1 h2 => ?_, by decide⟩
  rw [allocate_rooms_run st h1 h2]
  refine ⟨_, rfl, ?_⟩
  have := allocLoop_log_length (visitOrder st.students) st.rooms st.students []
  simpa using this

/-- Witness for C2: the first-fit scan, the all-full scan and the log
length at concrete inputs. -/
theorem alloc_C2_first_fit_witness :
    allocScan "S1" [fullRoom, mkRoom "101" 2 0 "Standard"] =
      ([fullRoom, { number := "101", capacity := 2, floor := 0, type := "Standard",
                    occupied := 1, students := ["S1"] }], some "101") ∧
    allocScan "S1" [fullRoom] = ([fullRoom], none) ∧
    (∃ l, (HostelSystem.allocate_rooms scenarioC2).2.log = some l ∧
      l.length = (visitOrder scenarioC2.students).length) := by
  refine ⟨?_, ?_, ?_⟩
  · exact (alloc_C2_first_fit.1 "S1" [fullRoom] [] (mkRoom "101" 2 0 "Standard")
      (by decide) (by decide)).trans (by decide)
  · exact alloc_C2_first_fit.2.1 "S1" [fullRoom] (by decide)
  · exact alloc_C2_first_fit.2.2.1 scenarioC2 (by decide) (by decide)

/-- C9: allocate_rooms mutates only Room.occupied, Room.students and
Student.room: the immutable attributes of every room and student, and
the length and order of both collections, are identical after the pass
(proved for every input state, successful pass or not). -/
theorem alloc_C9_frame (st : HostelState) :
    ((HostelSystem.allocate_rooms st).1).rooms.map frameR = st.rooms.map frameR ∧
    ((HostelSystem.allocate_rooms st).1).students.map frameS = st.students.map frameS ∧
    ((HostelSystem.allocate_rooms st).1).rooms.length = st.rooms.length ∧
    ((HostelSystem.allocate_rooms st).1).students.length = st.students.length := by
  by_cases h1 : st.rooms = []
  · rw [allocate_rooms_empty_rooms st h1]
    exact ⟨rfl, rfl, rfl, rfl⟩
  · by_cases h2 : st.students = []
    · rw [allocate_rooms_empty_students st h1 h2]
      exact ⟨rfl, rfl, rfl, rfl⟩
    · rw [allocate_rooms_run st h1 h2]
      have hr := allocLoop_rooms_frame (visitOrder st.students) st.rooms st.students []
      have hs := allocLoop_students_frame (visitOrder st.students) st.rooms st.students []
        (visitOrder_get? st.students) (visitOrder_pairwise_ne st.students)
      refine ⟨hr, hs, ?_, ?_⟩
      · have := congrArg List.length hr
        simpa using this
      · have := congrArg List.length hs
        simpa using this

/-- C3: the allocation pass visits exactly the index-tagged students
whose lowercased gender is "male" or "female"; every male-group student
is visited before any female-group student; within a common gender
group the visitation order is year-descending with ties kept in original
collection order (the strict key order keyLt); and a student of any
other gender is never visited and is left completely unchanged by
allocate_rooms. -/
theorem alloc_C3_visitation_order :
    (∀ (l : List Student) (p : Nat × Student),
      p ∈ visitOrder l ↔
        p ∈ withIdx l ∧ (genderOf p.2 = "male" ∨ genderOf p.2 = "female")) ∧
    (∀ l : List Student, (visitOrder l).Pairwise
      (fun p q => genderOf q.2 = "male" → genderOf p.2 = "male")) ∧
    (∀ l : List Student, (visitOrder l).Pairwise
      (fun p q => genderOf p.2 = genderOf q.2 → keyLt p q)) ∧
    (∀ (st : HostelState) (j : Nat) (s : Student),
      st.students.get? j = some s → genderOf s ≠ "male" → genderOf s ≠ "female" →
      ((HostelSystem.allocate_rooms st).1).students.get? j = some s) := by
  refine ⟨visitOrder_mem_iff, ?_, ?_, ?_⟩
  · intro l
    unfold visitOrder
    rw [List.pairwise_append]
    refine ⟨?_, ?_, ?_⟩
    · apply List.pairwise_of_forall_mem_list
      intro a ha _ _ _
      exact beq_iff_eq.mp (List.mem_filter.mp ha).2
    · apply List.pairwise_of_forall_mem_list
      intro a _ b hb hbm
      have hbf := beq_iff_eq.mp (List.mem_filter.mp hb).2
      rw [hbf] at hbm
      exact absurd hbm (by decide)
    · intro a ha b _ hbm
      exact beq_iff_eq.mp (List.mem_filter.mp ha).2
  · intro l
    unfold visitOrder
    rw [List.pairwise_append]
    have hk := sorted_keyLt l
    refine ⟨?_, ?_, ?_⟩
    · refine (hk.sublist (List.filter_sublist _)).imp ?_
      intro a b hkab
      exact fun _ => hkab
    · refine (hk.sublist (List.filter_sublist _)).imp ?_
      intro a b hkab
      exact fun _ => hkab
    intro a ha b hb hg
    exfalso
    have ha2 := beq_iff_eq.mp (List.mem_filter.mp ha).2
    have hb2 := beq_iff_eq.mp (List.mem_filter.mp hb).2
    rw [ha2, hb2] at hg
    exact absurd hg (by decide)
  · intro st j s hj hg1 hg2
    by_cases h1 : st.rooms = []
    · rw [allocate_rooms_empty_rooms st h1]
      exact hj
    · by_cases h2 : st.students = []
      · rw [allocate_rooms_empty_students st h1 h2]
        exact hj
      · rw [allocate_rooms_run st h1 h2]
        exact (allocLoop_untouched (visitOrder st.students) st.rooms st.students [] j
          (visitOrder_not_mem_fst st.students j s hj hg1 hg2)).trans hj

/-- Witness for C3: a student of gender "other" is untouched by a
concrete allocation run with beds to spare. -/
theorem alloc_C3_visitation_order_witness :
    ((HostelSystem.allocate_rooms otherGenderState).1).students.get? 0 =
      some (mkStudent "S1" "Pat" "other" 3) :=
  alloc_C3_visitation_order.2.2.2 otherGenderState 0 (mkStudent "S1" "Pat" "other" 3)
    (by decide) (by decide) (by decide)

/-- C7: allocate_rooms is deterministic — two states with equal room and
student collections produce the identical log — and re-running it on a
state whose prior run left every student unassigned reproduces the prior
log exactly. -/
theorem alloc_C7_deterministic :
    (∀ st1 st2 : HostelState, st1.rooms = st2.rooms → st1.students = st2.students →
      (HostelSystem.allocate_rooms st1).2.log = (HostelSystem.allocate_rooms st2).2.log) ∧
    (∀ st : HostelState,
      (∀ s ∈ ((HostelSystem.allocate_rooms st).1).students, s.room = none) →
      (HostelSystem.allocate_rooms ((HostelSystem.allocate_rooms st).1)).2.log =
        (HostelSystem.allocate_rooms st).2.log) := by
  constructor
  · intro st1 st2 hr hs
    have he : st1 = st2 := by
      cases st1
      cases st2
      simp_all
    rw [he]
  · intro st hall
    have hfix : (HostelSystem.allocate_rooms st).1 = st := by
      by_cases h1 : st.rooms = []
      · rw [allocate_rooms_empty_rooms st h1]
      · by_cases h2 : st.students = []
        · rw [allocate_rooms_empty_students st h1 h2]
        · rw [allocate_rooms_run st h1 h2] at hall ⊢
          obtain ⟨ha, hb⟩ := allocLoop_noassign (visitOrder st.students) st.rooms
            st.students [] (visitOrder_get? st.students)
            (visitOrder_pairwise_ne st.students) hall
          rw [ha, hb]
    rw [hfix]

/-- Witness for C7: a run in which the single bed is already taken, so
the student stays unassigned and rerunning reproduces the log; plus the
trivial equal-input instance. -/
theorem alloc_C7_deterministic_witness :
    (HostelSystem.allocate_rooms ((HostelSystem.allocate_rooms noFitState).1)).2.log =
      (HostelSystem.allocate_rooms noFitState).2.log ∧
    (HostelSystem.allocate_rooms noFitState).2.log =
      (HostelSystem.allocate_rooms noFitState).2.log :=
  ⟨alloc_C7_deterministic.2 noFitState (by decide),
   alloc_C7_deterministic.1 noFitState noFitState rfl rfl⟩
